import Mathlib

/-!
Verification development for the field-extraction core of the
Martina-NAT repository (src/renombrador_labcorp.py and
src/etl_autorizaciones.py).

Strings are embedded as `List Char`.  Python's `re` module, as used by the
source (literal text, character classes, bounded/unbounded repetition of a
character class, alternation, optional groups, word boundaries, the
MULTILINE end-of-line anchor, capture groups, IGNORECASE/DOTALL, `search`,
`finditer`, `sub`), is embedded as a small backtracking engine whose
candidate order reproduces the leftmost / first-alternative / greedy-vs-lazy
priority of the Python engine.  Machine-specific behaviour is restricted to
ASCII, which covers every character the source's patterns and tables touch.
-/

set_option maxRecDepth 10000
set_option maxHeartbeats 2000000

deriving instance DecidableEq for Except

/-- Python strings are embedded as lists of characters. -/
abbrev Lstr := List Char

/-- Shorthand turning a Lean string literal into the `List Char` embedding. -/
def lit (s : String) : Lstr := s.toList

/-- Model of Python `str.upper` restricted to ASCII: each lowercase ASCII
letter is mapped to its uppercase form and every other character is kept. -/
def pyUpper : Char → Char
  | 'a' => 'A' | 'b' => 'B' | 'c' => 'C' | 'd' => 'D' | 'e' => 'E'
  | 'f' => 'F' | 'g' => 'G' | 'h' => 'H' | 'i' => 'I' | 'j' => 'J'
  | 'k' => 'K' | 'l' => 'L' | 'm' => 'M' | 'n' => 'N' | 'o' => 'O'
  | 'p' => 'P' | 'q' => 'Q' | 'r' => 'R' | 's' => 'S' | 't' => 'T'
  | 'u' => 'U' | 'v' => 'V' | 'w' => 'W' | 'x' => 'X' | 'y' => 'Y'
  | 'z' => 'Z' | c => c

/-- Python whitespace (the characters matched by `\s` and stripped by
`str.strip()`), restricted to ASCII. -/
def isWS (c : Char) : Bool :=
  c = ' ' || c = '\t' || c = '\n' || c = '\r' || c = '\x0b' || c = '\x0c'

/-- The characters of the class `[ \t]` (space and tab). -/
def isST (c : Char) : Bool := c = ' ' || c = '\t'

/-- Occurrence count of a character in a string. -/
def countC (c : Char) : Lstr → Nat
  | [] => 0
  | x :: xs => (if x = c then 1 else 0) + countC c xs

/-- Does the string `s` start with the string `p`? (model of Python
`str.startswith`, used by the `str.replace` loop below). -/
def startsW : Lstr → Lstr → Bool
  | [], _ => true
  | _ :: _, [] => false
  | a :: as, b :: bs => a = b && startsW as bs

/-- Does `p` occur as a contiguous substring of `s`? (model of Python's
`in` operator on strings). -/
def containsSubstr (p : Lstr) : Lstr → Bool
  | [] => p.isEmpty
  | c :: rest => startsW p (c :: rest) || containsSubstr p rest

/-- Worker for `pyReplace`, structurally recursive with a step-count fuel
(one unit per character examined, so `s.length` units always suffice). -/
def pyReplaceF (pat rep : Lstr) : Nat → Lstr → Lstr
  | _, [] => []
  | 0, s => s
  | fuel + 1, c :: rest =>
    if !pat.isEmpty && startsW pat (c :: rest) then
      rep ++ pyReplaceF pat rep fuel (List.drop pat.length (c :: rest))
    else
      c :: pyReplaceF pat rep fuel rest

/-- Model of Python `str.replace(pat, rep)`: non-overlapping, left-to-right
replacement of every occurrence.  All patterns used by the source are
nonempty; an empty pattern is treated as matching nowhere. -/
def pyReplace (s pat rep : Lstr) : Lstr := pyReplaceF pat rep s.length s

/-- Worker for `collapseRun`: `inRun` records whether the previous
character belonged to the class (in which case the current run's single
space has already been emitted). -/
def collapseGo (p : Char → Bool) (inRun : Bool) : Lstr → Lstr
  | [] => []
  | c :: rest =>
    if p c then
      if inRun then collapseGo p true rest
      else ' ' :: collapseGo p true rest
    else c :: collapseGo p false rest

/-- Model of `re.sub(r"<cls>+", " ", s)` for a single-character class `p`:
every maximal run of `p`-characters is replaced by one space.  The source
uses it with `[ \t]+` (in `normalizar_ocr`) and `\s+` (in `limpiar_nombre`). -/
def collapseRun (p : Char → Bool) (l : Lstr) : Lstr := collapseGo p false l

/-- Is there a pair of adjacent characters both satisfying `p`? -/
def hasAdj (p : Char → Bool) : Lstr → Bool
  | a :: b :: rest => (p a && p b) || hasAdj p (b :: rest)
  | _ => false

/-- Model of Python `str.strip()` (no arguments): removes leading and
trailing whitespace. -/
def pyStrip (s : Lstr) : Lstr :=
  ((s.dropWhile isWS).reverse.dropWhile isWS).reverse

/-- Worker for `pySplitWS`, structurally recursive with a step-count fuel
(`s.length` units always suffice). -/
def pySplitF : Nat → Lstr → List Lstr
  | _, [] => []
  | 0, s => [s]
  | fuel + 1, c :: rest =>
    if isWS c then pySplitF fuel rest
    else (c :: rest.takeWhile (fun x => !isWS x)) ::
         pySplitF fuel (rest.dropWhile (fun x => !isWS x))

/-- Model of Python `str.split()` (no arguments): splits on runs of
whitespace and drops empty pieces. -/
def pySplitWS (s : Lstr) : List Lstr := pySplitF s.length s

/-- Model of Python `" ".join(ws)`. -/
def joinSpace : List Lstr → Lstr
  | [] => []
  | [w] => w
  | w :: rest => w ++ ' ' :: joinSpace rest

/-! ## Module-level tables and leaf functions of renombrador_labcorp.py -/

/-- The module-level blocklist `NEGATIVOS` (renombrador_labcorp.py lines
27-33).  The source stores it as a Python set and only iterates it to ask
whether any entry occurs, so the embedding as a list is order-insensitive. -/
def NEGATIVOS : List Lstr :=
  [lit "DATE OF BIRTH", lit "DOB FEMALE", lit "DOB MALE", lit "PATIENT ID",
   lit "ACCOUNT NO", lit "LOS ANGELES", lit "LOS ", lit "CA ", lit "GLENDALE",
   lit "DOWNEY", lit "PASADENA", lit "ROSEMEAD", lit "CENTER", lit "HOSPITAL",
   lit "FAMILY HEALTH", lit "ENDOCRINOLOGY", lit "VISIT", lit "OFFICE",
   lit "STREET", lit "ST.", lit "BLVD", lit "AVENUE", lit "FAX", lit "COVER",
   lit "SHEET", lit "RESULT", lit "REPORT", lit "SUMMARY", lit "MRN",
   lit "ACC NO", lit "ACCNO", lit "BILLING", lit "LAB", lit "LIPID",
   lit "PANEL", lit "COMPREHENSIVE", lit "METABOLIC", lit "REQUEST",
   lit "INFORMATION"]

/-- The characters of the class `[\\/*?:\"<>|\r\n]` of `limpiar_nombre`. -/
def isIllegalFile (c : Char) : Bool :=
  c = '\\' || c = '/' || c = '*' || c = '?' || c = ':' || c = '\"' ||
  c = '<' || c = '>' || c = '|' || c = '\r' || c = '\n'

/-- `limpiar_nombre` (renombrador_labcorp.py lines 37-42): each
filesystem-illegal character becomes a hyphen (a single-character class with
no quantifier, so `re.sub` is a character map), whitespace runs collapse to
one space, and the result is stripped. -/
def limpiar_nombre (s : Lstr) : Lstr :=
  pyStrip (collapseRun isWS (s.map (fun c => if isIllegalFile c then '-' else c)))

/-- Does the string contain a run of three or more consecutive decimal
digits?  Embeds the test `re.search(r"\d{3,}", up)` of `es_nombre_valido`:
that search succeeds exactly when three consecutive digit characters occur. -/
def hasDigitRun3 : Lstr → Bool
  | a :: b :: c :: rest =>
    (a.isDigit && b.isDigit && c.isDigit) || hasDigitRun3 (b :: c :: rest)
  | _ => false

/-- `es_nombre_valido` (renombrador_labcorp.py lines 44-58). -/
def es_nombre_valido (nombre : Lstr) : Bool :=
  let up := nombre.map pyUpper
  if up.length < 5 then false
  else if NEGATIVOS.any (fun neg => containsSubstr neg up) then false
  else if !(up.any (fun c => c = ' ')) then false
  else if hasDigitRun3 up then false
  else true

/-- `normalizar_ocr` (renombrador_labcorp.py lines 60-75): the six textual
substitutions of the `rep` dict in insertion order, then carriage returns
become newlines (a single-character replace, hence a character map), then
runs of spaces and tabs collapse to one space. -/
def normalizar_ocr (texto : Lstr) : Lstr :=
  let t := pyReplace texto (lit "D0B") (lit "DOB")
  let t := pyReplace t (lit "D0 B") (lit "DOB")
  let t := pyReplace t (lit "D.O.B") (lit "DOB")
  let t := pyReplace t (lit "D 0 B") (lit "DOB")
  let t := pyReplace t (lit "0/") (lit "0/")
  let t := pyReplace t (lit " O/") (lit " 0/")
  let t := t.map (fun c => if c = '\r' then '\n' else c)
  collapseRun isST t

/-! ## The regex engine

A backtracking matcher for the fragment of Python `re` that the source
uses.  Unbounded or counted repetition only ever applies to a
single-character class in the source's patterns, which keeps the matcher
total.  Candidate continuations are produced in exactly the order the
Python engine tries them (left alternative first, longest repetition first
when greedy, shortest first when lazy), so taking the head of the
candidate list reproduces Python's match. -/

/-- Matcher state: absolute position, previous character (for word
boundaries) and remaining input. -/
structure MState where
  pos : Nat
  prev : Option Char
  rest : Lstr

/-- Regular expressions of the fragment used by the source. -/
inductive RE where
  | eps : RE
  | cls : (Char → Bool) → RE
  | cat : RE → RE → RE
  | alt : RE → RE → RE
  | repCls : (Char → Bool) → Nat → Option Nat → Bool → RE
  | group : Nat → RE → RE
  | wordB : RE
  | lineEnd : RE

/-- Captures: group index with start and stop positions, most recent first. -/
abbrev Caps := List (Nat × Nat × Nat)

/-- Word character test for `\b` (ASCII fragment of Python `\w`). -/
def isWordCh (c : Char) : Bool := c.isAlphanum || c = '_'

/-- All states reachable by consuming `0, 1, …, max` characters of class
`p`, in ascending order of consumed count; stops early when the run ends. -/
def takeStates (p : Char → Bool) : Nat → MState → List MState
  | 0, s => [s]
  | n + 1, s =>
    s :: (match s.rest with
          | c :: r => if p c then takeStates p n ⟨s.pos + 1, some c, r⟩ else []
          | [] => [])

/-- The backtracking matcher: all ways `r` can match at state `s`, paired
with the captures, in Python's priority order. -/
def matchRE (r : RE) (s : MState) (cp : Caps) : List (MState × Caps) :=
  match r with
  | .eps => [(s, cp)]
  | .cls p =>
    match s.rest with
    | c :: rest => if p c then [(⟨s.pos + 1, some c, rest⟩, cp)] else []
    | [] => []
  | .cat a b => (matchRE a s cp).flatMap (fun x => matchRE b x.1 x.2)
  | .alt a b => matchRE a s cp ++ matchRE b s cp
  | .repCls p lo hi lz =>
    let lim := match hi with | some h => h | none => s.rest.length
    let sts := (takeStates p lim s).drop lo
    (if lz then sts else sts.reverse).map (fun t => (t, cp))
  | .group n a => (matchRE a s cp).map (fun x => (x.1, (n, s.pos, x.1.pos) :: x.2))
  | .wordB =>
    let pw := match s.prev with | some c => isWordCh c | none => false
    let cw := match s.rest with | c :: _ => isWordCh c | [] => false
    if pw = cw then [] else [(s, cp)]
  | .lineEnd =>
    match s.rest with
    | [] => [(s, cp)]
    | c :: _ => if c = '\n' then [(s, cp)] else []

/-- Every state of the input, in ascending position order. -/
def allStates (pos : Nat) (prv : Option Char) : Lstr → List MState
  | [] => [⟨pos, prv, []⟩]
  | c :: r => ⟨pos, prv, c :: r⟩ :: allStates (pos + 1) (some c) r

/-- First match among the given candidate start states (the engine's
leftmost-match rule). -/
def findFirstM (r : RE) (sts : List MState) : Option (MState × MState × Caps) :=
  sts.findSome? (fun s =>
    match matchRE r s [] with
    | [] => none
    | (e, cp) :: _ => some (s, e, cp))

/-- Model of `re.search`: start position, end position and captures of the
leftmost match. -/
def research (r : RE) (inp : Lstr) : Option (Nat × Nat × Caps) :=
  (findFirstM r (allStates 0 none inp)).map (fun x => (x.1.pos, x.2.1.pos, x.2.2))

/-- Scanner loop shared by `finditer` and `sub`: collects non-overlapping
matches left to right, advancing past empty matches. -/
def iterGo (r : RE) : Nat → List MState → List (MState × MState × Caps)
  | 0, _ => []
  | fuel + 1, sts =>
    match findFirstM r sts with
    | none => []
    | some (st, e, cp) =>
      let nxt := if st.pos < e.pos then e.pos else st.pos + 1
      (st, e, cp) :: iterGo r fuel (sts.dropWhile (fun x => decide (x.pos < nxt)))

/-- Model of `re.finditer`: all non-overlapping matches, leftmost first. -/
def refinditer (r : RE) (inp : Lstr) : List (MState × MState × Caps) :=
  iterGo r (inp.length + 1) (allStates 0 none inp)

/-- The text of capture group `n` (used for Python `m.group(n)`; every
group the source reads participates in the match whenever it succeeds). -/
def capStr (inp : Lstr) (cp : Caps) (n : Nat) : Lstr :=
  match cp.find? (fun x => x.1 = n) with
  | some x => (inp.drop x.2.1).take (x.2.2 - x.2.1)
  | none => []

/-- Replacement templates for `re.sub`: literal characters and group
references. -/
inductive Tpl where
  | lc : Char → Tpl
  | ref : Nat → Tpl

/-- Instantiate a replacement template against the captures of one match. -/
def instTpl (inp : Lstr) (cp : Caps) (tpl : List Tpl) : Lstr :=
  tpl.flatMap (fun t => match t with | .lc c => [c] | .ref n => capStr inp cp n)

/-- Worker for `re.sub`: `cursor` is the position up to which output has
been emitted. -/
def subGo (r : RE) (tpl : List Tpl) (inp : Lstr) : Nat → Nat → List MState → Lstr
  | _, cursor, [] => inp.drop cursor
  | 0, cursor, _ => inp.drop cursor
  | fuel + 1, cursor, sts =>
    match findFirstM r sts with
    | none => inp.drop cursor
    | some (st, e, cp) =>
      let seg := (inp.drop cursor).take (st.pos - cursor)
      if st.pos < e.pos then
        seg ++ instTpl inp cp tpl ++
          subGo r tpl inp fuel e.pos (sts.dropWhile (fun x => decide (x.pos < e.pos)))
      else
        seg ++ instTpl inp cp tpl ++ ((inp.drop st.pos).take 1) ++
          subGo r tpl inp fuel (st.pos + 1)
            (sts.dropWhile (fun x => decide (x.pos < st.pos + 1)))

/-- Model of `re.sub(pattern, template, s)` (all occurrences). -/
def resub (r : RE) (tpl : List Tpl) (inp : Lstr) : Lstr :=
  subGo r tpl inp (inp.length + 1) 0 (allStates 0 none inp)

/-! ## The source's compiled patterns

Each Python pattern string is hand-compiled to an `RE`, with the flags the
source passes at the call site baked in (IGNORECASE makes literals and the
`[A-Z]` class case-insensitive; DOTALL makes `.` match every character;
MULTILINE makes `$` match before any newline). -/

/-- Case-insensitive single-character comparison, as under `re.IGNORECASE`
(ASCII fragment). -/
def eqCI (c d : Char) : Bool := pyUpper c = pyUpper d

/-- Concatenation of a list of regexes. -/
def rcat : List RE → RE
  | [] => .eps
  | [r] => r
  | r :: rs => .cat r (rcat rs)

/-- A case-insensitive literal. -/
def reLit (s : String) : RE :=
  rcat (s.toList.map (fun d => .cls (fun c => eqCI c d)))

/-- `r?` for a subexpression (greedy optional). -/
def reOpt (r : RE) : RE := .alt r .eps

/-- The class `[A-Z]` under IGNORECASE, and `[A-Za-z]` (ASCII letters). -/
def clsAlpha (c : Char) : Bool := c.isAlpha

/-- The class `[A-Za-z' \-]` (IGNORECASE leaves it unchanged). -/
def clsNameChar (c : Char) : Bool := c.isAlpha || c = '\'' || c = ' ' || c = '-'

/-- The class `[:\s]`. -/
def clsColonWS (c : Char) : Bool := c = ':' || isWS c

/-- The class `[/ -]` and `[/\-]`. -/
def clsSlashDash (c : Char) : Bool := c = '/' || c = '-'

/-- The class `[0-9A-Za-z/,\- ]` of the DOB payload captures. -/
def clsDobPayload (c : Char) : Bool :=
  c.isAlphanum || c = '/' || c = ',' || c = '-' || c = ' '

/-- `.` under DOTALL. -/
def clsAny (_ : Char) : Bool := true

/-- The class `[^ \n]`. -/
def clsNotSpNl (c : Char) : Bool := !(c = ' ' || c = '\n')

/-- The class `[^\d]`. -/
def clsNotDigit (c : Char) : Bool := !c.isDigit

/-- The class `[0-9OQIlSsCBZ]` under IGNORECASE. -/
def clsOcrDate (c : Char) : Bool :=
  c.isDigit || pyUpper c = 'O' || pyUpper c = 'Q' || pyUpper c = 'I' ||
  pyUpper c = 'L' || pyUpper c = 'S' || pyUpper c = 'C' || pyUpper c = 'B' ||
  pyUpper c = 'Z'

/-- A greedy counted repetition of a class: `{lo,hi}`. -/
def reRep (p : Char → Bool) (lo : Nat) (hi : Option Nat) : RE :=
  .repCls p lo hi false

/-- The capture `([A-Z][A-Za-z' \-]+)` as group `n` (under IGNORECASE). -/
def reNamePart (n : Nat) : RE :=
  .group n (.cat (.cls clsAlpha) (reRep clsNameChar 1 none))

/-- The separator `,\s*` between the two name captures. -/
def reCommaSp : RE := .cat (.cls (fun c => c = ',')) (reRep isWS 0 none)

/-- The tail `\bDOB[:\s]*([0-9A-Za-z/,\- ]{4,})` with payload group 3. -/
def reDobTail : RE :=
  rcat [.wordB, reLit "DOB", reRep clsColonWS 0 none,
        .group 3 (reRep clsDobPayload 4 none)]

/-- The numeric date payload `([0-9]{1,2}[/ -][0-9]{1,2}[/ -][0-9]{2,4})`
as group 1. -/
def reNumDate : RE :=
  .group 1 (rcat [reRep Char.isDigit 1 (some 2), .cls clsSlashDash,
                  reRep Char.isDigit 1 (some 2), .cls clsSlashDash,
                  reRep Char.isDigit 2 (some 4)])

/-- DOB_REGEXES[0]: `\bDOB[:\s]*([0-9]{1,2}[/ -][0-9]{1,2}[/ -][0-9]{2,4})`. -/
def reDob1 : RE := rcat [.wordB, reLit "DOB", reRep clsColonWS 0 none, reNumDate]

/-- DOB_REGEXES[1]: `\bDate of Birth[:\s]*(…)` (same payload). -/
def reDob2 : RE :=
  rcat [.wordB, reLit "Date of Birth", reRep clsColonWS 0 none, reNumDate]

/-- DOB_REGEXES[2]: `\bDOB[:\s]*([A-Za-z]{3,9}\s+\d{1,2},?\s+\d{2,4})`. -/
def reDob3 : RE :=
  rcat [.wordB, reLit "DOB", reRep clsColonWS 0 none,
        .group 1 (rcat [reRep clsAlpha 3 (some 9), reRep isWS 1 none,
                        reRep Char.isDigit 1 (some 2),
                        reOpt (.cls (fun c => c = ',')), reRep isWS 1 none,
                        reRep Char.isDigit 2 (some 4)])]

/-- `DOB_REGEXES` (renombrador_labcorp.py lines 131-135). -/
def DOB_REGEXES : List RE := [reDob1, reDob2, reDob3]

/-- The lazy gap `.*?` under DOTALL. -/
def reLazyGap : RE := .repCls clsAny 0 none true

/-- The optional numeric id `(?:\d+\s*-\s*)?` of the "Patient:" patterns. -/
def reOptId : RE :=
  reOpt (rcat [reRep Char.isDigit 1 none, reRep isWS 0 none,
               .cls (fun c => c = '-'), reRep isWS 0 none])

/-- `(?:DOB|D\.?O\.?B\.?)` (left alternative tried first). -/
def reDOBalt : RE :=
  .alt (reLit "DOB")
    (rcat [.cls (fun c => eqCI c 'D'), reOpt (.cls (fun c => c = '.')),
           .cls (fun c => eqCI c 'O'), reOpt (.cls (fun c => c = '.')),
           .cls (fun c => eqCI c 'B'), reOpt (.cls (fun c => c = '.'))])

/-- NAME_DOB_REGEXES[0]:
`\b([A-Z][A-Za-z' \-]+),\s*([A-Z][A-Za-z' \-]+).*?\bDOB[:\s]*([0-9A-Za-z/,\- ]{4,})`. -/
def reNameDob1 : RE :=
  rcat [.wordB, reNamePart 1, reCommaSp, reNamePart 2, reLazyGap, reDobTail]

/-- NAME_DOB_REGEXES[1]: `\bPatient\s*Name[:\s]*` then the same body. -/
def reNameDob2 : RE :=
  rcat [.wordB, reLit "Patient", reRep isWS 0 none, reLit "Name",
        reRep clsColonWS 0 none, reNamePart 1, reCommaSp, reNamePart 2,
        reLazyGap, reDobTail]

/-- NAME_DOB_REGEXES[2]: `\bPatient[:\s]*(?:\d+\s*-\s*)?` then the body. -/
def reNameDob3 : RE :=
  rcat [.wordB, reLit "Patient", reRep clsColonWS 0 none, reOptId,
        reNamePart 1, reCommaSp, reNamePart 2, reLazyGap, reDobTail]

/-- NAME_DOB_REGEXES[3]:
`\b(…),\s*(…)[^ \n]{0,60}?\b(?:DOB|D\.?O\.?B\.?)[:\s]*([0-9A-Za-z/,\- ]{4,})`. -/
def reNameDob4 : RE :=
  rcat [.wordB, reNamePart 1, reCommaSp, reNamePart 2,
        .repCls clsNotSpNl 0 (some 60) true, .wordB, reDOBalt,
        reRep clsColonWS 0 none, .group 3 (reRep clsDobPayload 4 none)]

/-- `NAME_DOB_REGEXES` (renombrador_labcorp.py lines 138-147). -/
def NAME_DOB_REGEXES : List RE := [reNameDob1, reNameDob2, reNameDob3, reNameDob4]

/-- NAME_ONLY_REGEXES[0]: `\bPatient\s*Name[:\s]*(…),\s*(…)\b`. -/
def reNameOnly1 : RE :=
  rcat [.wordB, reLit "Patient", reRep isWS 0 none, reLit "Name",
        reRep clsColonWS 0 none, reNamePart 1, reCommaSp, reNamePart 2, .wordB]

/-- NAME_ONLY_REGEXES[1]: `\bPatient[:\s]*(?:\d+\s*-\s*)?(…),\s*(…)\b`. -/
def reNameOnly2 : RE :=
  rcat [.wordB, reLit "Patient", reRep clsColonWS 0 none, reOptId,
        reNamePart 1, reCommaSp, reNamePart 2, .wordB]

/-- NAME_ONLY_REGEXES[2]: `\b(…),\s*(…)\s*(?:DOB|D\.?O\.?B\.?)\b`. -/
def reNameOnly3 : RE :=
  rcat [.wordB, reNamePart 1, reCommaSp, reNamePart 2, reRep isWS 0 none,
        reDOBalt, .wordB]

/-- `NAME_ONLY_REGEXES` (renombrador_labcorp.py lines 150-154). -/
def NAME_ONLY_REGEXES : List RE := [reNameOnly1, reNameOnly2, reNameOnly3]

/-- The window pattern `([A-Z][A-Za-z' \-]+),\s*([A-Z][A-Za-z' \-]+)\s*$`
of `buscar_por_proximidad` (IGNORECASE and MULTILINE). -/
def reProxEnd : RE :=
  rcat [reNamePart 1, reCommaSp, reNamePart 2, reRep isWS 0 none, .lineEnd]

/-- The fallback window pattern `([A-Z][A-Za-z' \-]+),\s*([A-Z][A-Za-z' \-]+)`. -/
def reProxAny : RE := rcat [reNamePart 1, reCommaSp, reNamePart 2]

/-- The strict fallback pattern `(\d{1,2})[/ -](\d{1,2})[/ -](\d{2,4})` of
`normalizar_fecha`. -/
def reFecha : RE :=
  rcat [.group 1 (reRep Char.isDigit 1 (some 2)), .cls clsSlashDash,
        .group 2 (reRep Char.isDigit 1 (some 2)), .cls clsSlashDash,
        .group 3 (reRep Char.isDigit 2 (some 4))]

/-! ## normalizar_fecha and its external date parser -/

/-- Days in each month, with leap-year February (the external parser
validates a candidate day by constructing a `datetime`). -/
def daysInMonth (m y : Nat) : Nat :=
  if m = 2 then (if y % 4 = 0 && (y % 100 != 0 || y % 400 = 0) then 29 else 28)
  else if m = 4 || m = 6 || m = 9 || m = 11 then 30
  else 31

/-- Split a string at every occurrence of a separator character. -/
def splitOnC (sep : Char) : Lstr → List Lstr
  | [] => [[]]
  | c :: rest =>
    let r := splitOnC sep rest
    if c = sep then [] :: r
    else match r with
         | w :: ws => (c :: w) :: ws
         | [] => [[c]]

/-- Numeric value of an all-digit string. -/
def toNatL (s : Lstr) : Nat :=
  s.foldl (fun n c => n * 10 + (c.toNat - '0'.toNat)) 0

/-- Model of the external `dateutil.parser.parse(s, dayfirst=False,
fuzzy=True)` call of `normalizar_fecha`, restricted to the fragment this
development exercises: a strictly numeric `M/D/YYYY` date (slash-separated,
as produced by `normalizar_fecha`'s separator unification, month 1-12, day
valid for the month, four-digit year).  On that fragment the external
parser returns exactly this triple; every other input is modelled as a
parse failure.  The model is conservative: concrete claims are only
evaluated on texts whose date substrings fall inside the fragment. -/
def dtparse (s : Lstr) : Option (Nat × Nat × Nat) :=
  match splitOnC '/' s with
  | [a, b, c] =>
    if (a ++ b ++ c).all Char.isDigit &&
       decide (1 ≤ a.length) && decide (a.length ≤ 2) &&
       decide (1 ≤ b.length) && decide (b.length ≤ 2) &&
       decide (c.length = 4) then
      let m := toNatL a
      let d := toNatL b
      let y := toNatL c
      if 1 ≤ m && m ≤ 12 && 1 ≤ d && d ≤ daysInMonth m y then some (m, d, y)
      else none
    else none
  | _ => none

/-- Decimal digit string of a natural number. -/
def natStr (n : Nat) : Lstr := Nat.toDigits 10 n

/-- `f"{n:02d}"`: decimal digits padded to width two. -/
def pad2 (n : Nat) : Lstr :=
  if n < 10 then '0' :: natStr n else natStr n

/-- `dt.strftime("%m-%d-%Y")` for the years the code forwards to it
(within [1900, 2100], hence four digits). -/
def fmtDate (m d y : Nat) : Lstr :=
  pad2 m ++ '-' :: (pad2 d ++ '-' :: natStr y)

/-- `str.zfill(2)`. -/
def zfill2 (s : Lstr) : Lstr :=
  if s.length < 2 then List.replicate (2 - s.length) '0' ++ s else s

/-- The `except` branch of `normalizar_fecha`: the strict regex
`(\d{1,2})[/ -](\d{1,2})[/ -](\d{2,4})`, two-digit years expanded with a
leading "20"; when the regex fails the exception propagates. -/
def fallbackFecha (f : Lstr) : Except Unit Lstr :=
  match research reFecha f with
  | none => .error ()
  | some x =>
    let mm := capStr f x.2.2 1
    let dd := capStr f x.2.2 2
    let yy := capStr f x.2.2 3
    let yy := if yy.length = 4 then yy else lit "20" ++ zfill2 yy
    .ok (pad2 (toNatL mm) ++ '-' :: (pad2 (toNatL dd) ++ '-' :: yy))

/-- The first line of `normalizar_fecha`: strip, then unify the separators
backslash/dot/hyphen to slash (three single-character replaces, hence one
character map). -/
def unifySeps (fecha : Lstr) : Lstr :=
  (pyStrip fecha).map (fun c => if c = '\\' || c = '.' || c = '-' then '/' else c)

/-- `normalizar_fecha` (renombrador_labcorp.py lines 77-94): strip and
unify separators, try the lenient parse (rejecting years outside
[1900, 2100]), and on any failure fall back to the strict regex.
`DateParseError` is modelled as `Except.error ()`. -/
def normalizar_fecha (fecha : Lstr) : Except Unit Lstr :=
  match dtparse (unifySeps fecha) with
  | some x =>
    if x.2.2 < 1900 || 2100 < x.2.2 then fallbackFecha (unifySeps fecha)
    else .ok (fmtDate x.1 x.2.1 x.2.2)
  | none => fallbackFecha (unifySeps fecha)

/-! ## Name formation and the three extraction strategies -/

/-- `formar_nombre` (renombrador_labcorp.py lines 156-161).  Note the
f-string places `ln` (the captured group 1, the family name) first. -/
def formar_nombre (fn ln : Lstr) : Lstr :=
  let nombre := pyStrip (ln ++ ' ' :: fn)
  let nombre := joinSpace (pySplitWS nombre)
  let nombre := nombre.map pyUpper
  limpiar_nombre nombre

/-- The loop body of `buscar_por_linea` over the matches of one pattern:
normalize the date of the match (on failure continue), form the name, and
return the pair when the name validates. -/
def tryLinea (texto : Lstr) : List (MState × MState × Caps) → Option (Lstr × Lstr)
  | [] => none
  | (_, _, cp) :: rest =>
    let g1 := pyStrip (capStr texto cp 1)
    let g2 := pyStrip (capStr texto cp 2)
    let g3 := pyStrip (capStr texto cp 3)
    match normalizar_fecha g3 with
    | .error _ => tryLinea texto rest
    | .ok dob =>
      let nombre := formar_nombre g2 g1
      if es_nombre_valido nombre then some (nombre, dob)
      else tryLinea texto rest

/-- The outer loop of `buscar_por_linea` over `NAME_DOB_REGEXES`. -/
def buscarLineaGo (texto : Lstr) : List RE → Option (Lstr × Lstr)
  | [] => none
  | r :: rs =>
    match tryLinea texto (refinditer r texto) with
    | some p => some p
    | none => buscarLineaGo texto rs

/-- `buscar_por_linea` (renombrador_labcorp.py lines 163-175).  The Python
function returns either a pair of strings or `(None, None)`; the embedding
returns the same shape as a pair of options. -/
def buscar_por_linea (texto : Lstr) : Option Lstr × Option Lstr :=
  match buscarLineaGo texto NAME_DOB_REGEXES with
  | some p => (some p.1, some p.2)
  | none => (none, none)

/-- `ventana_previa` (renombrador_labcorp.py lines 177-179):
`texto[max(0, pos - ancho):pos]`. -/
def ventana_previa (texto : Lstr) (pos ancho : Nat) : Lstr :=
  (texto.take pos).drop (pos - ancho)

/-- The window name search of `buscar_por_proximidad` (lines 192-197):
the anchored pattern first, the anywhere pattern when it fails. -/
def proxName (win : Lstr) : Option (Nat × Nat × Caps) :=
  match research reProxEnd win with
  | some x => some x
  | none => research reProxAny win

/-- The loop body of `buscar_por_proximidad` for one DOB match: normalize
the matched date, search the 200-character window before the match for a
name, and succeed when the formed name validates; `none` is the loop's
`continue`. -/
def tryProxStep (texto : Lstr) (st : MState) (cp : Caps) : Option (Lstr × Lstr) :=
  match normalizar_fecha (capStr texto cp 1) with
  | .error _ => none
  | .ok dob =>
    match proxName (ventana_previa texto st.pos 200) with
    | none => none
    | some x =>
      let last := pyStrip (capStr (ventana_previa texto st.pos 200) x.2.2 1)
      let first := pyStrip (capStr (ventana_previa texto st.pos 200) x.2.2 2)
      let nombre := formar_nombre first last
      if es_nombre_valido nombre then some (nombre, dob)
      else none

/-- The loop of `buscar_por_proximidad` over the matches of one DOB
pattern (renombrador_labcorp.py lines 184-202). -/
def tryProx (texto : Lstr) : List (MState × MState × Caps) → Option (Lstr × Lstr)
  | [] => none
  | (st, _, cp) :: rest =>
    match tryProxStep texto st cp with
    | some p => some p
    | none => tryProx texto rest

/-- The outer loop of `buscar_por_proximidad` over `DOB_REGEXES`. -/
def buscarProxGo (texto : Lstr) : List RE → Option (Lstr × Lstr)
  | [] => none
  | r :: rs =>
    match tryProx texto (refinditer r texto) with
    | some p => some p
    | none => buscarProxGo texto rs

/-- `buscar_por_proximidad` (renombrador_labcorp.py lines 181-203). -/
def buscar_por_proximidad (texto : Lstr) : Option Lstr × Option Lstr :=
  match buscarProxGo texto DOB_REGEXES with
  | some p => (some p.1, some p.2)
  | none => (none, none)

/-- The `first_dob` loop of strategy 3 (renombrador_labcorp.py lines
216-224): for each DOB pattern take the first `re.search` match; if its
date normalizes, stop with it, otherwise move to the next pattern. -/
def findFirstDob (texto : Lstr) : List RE → Option Lstr
  | [] => none
  | r :: rs =>
    match research r texto with
    | none => findFirstDob texto rs
    | some x =>
      match normalizar_fecha (capStr texto x.2.2 1) with
      | .ok d => some d
      | .error _ => findFirstDob texto rs

/-- The name loop of strategy 3 (renombrador_labcorp.py lines 226-232):
first `re.search` match of each name-only pattern, returning the first
formed name that validates. -/
def findNameOnly (texto : Lstr) : List RE → Option Lstr
  | [] => none
  | r :: rs =>
    match research r texto with
    | none => findNameOnly texto rs
    | some x =>
      let last := pyStrip (capStr texto x.2.2 1)
      let first := pyStrip (capStr texto x.2.2 2)
      let nombre := formar_nombre first last
      if es_nombre_valido nombre then some nombre
      else findNameOnly texto rs

/-- Python truthiness of an optional string (`if nombre and dob:`). -/
def truthy : Option Lstr → Bool
  | none => false
  | some s => !s.isEmpty

/-- Strategy 3 of `extraer_nombre_dob`, the inline block at
renombrador_labcorp.py lines 214-233: pair the first global DOB with the
first valid stand-alone name. -/
def estrategia_c (texto : Lstr) : Option Lstr × Option Lstr :=
  let fd := findFirstDob texto DOB_REGEXES
  if truthy fd then
    match findNameOnly texto NAME_ONLY_REGEXES with
    | some n => (some n, fd)
    | none => (none, none)
  else (none, none)

/-- `extraer_nombre_dob` (renombrador_labcorp.py lines 205-233): the three
strategies in order, each used only when the previous one fails the
`if nombre and dob:` truthiness test. -/
def extraer_nombre_dob (texto : Lstr) : Option Lstr × Option Lstr :=
  let r1 := buscar_por_linea texto
  if truthy r1.1 && truthy r1.2 then r1
  else
    let r2 := buscar_por_proximidad texto
    if truthy r2.1 && truthy r2.2 then r2
    else estrategia_c texto

/-! ## extract_dob of etl_autorizaciones.py -/

/-- `str.maketrans("OQIlSsCBZ", "001155682")` as a character map (exact:
Python's translate is case-sensitive even though the pattern that feeds it
is compiled with IGNORECASE). -/
def translateOcrDigit (c : Char) : Char :=
  if c = 'O' then '0' else if c = 'Q' then '0' else if c = 'I' then '1'
  else if c = 'l' then '1' else if c = 'S' then '5' else if c = 's' then '5'
  else if c = 'C' then '6' else if c = 'B' then '8' else if c = 'Z' then '2'
  else c

/-- The pattern `DATE\s*OF\s*BIRTH[:\s]*([0-9OQIlSsCBZ]{6,12})` of
`extract_dob` (IGNORECASE). -/
def reDobX : RE :=
  rcat [reLit "DATE", reRep isWS 0 none, reLit "OF", reRep isWS 0 none,
        reLit "BIRTH", reRep clsColonWS 0 none,
        .group 1 (reRep clsOcrDate 6 (some 12))]

/-- The substitution pattern `(\d{2})(\d{2})(\d{4})`. -/
def reSub8 : RE :=
  rcat [.group 1 (reRep Char.isDigit 2 (some 2)),
        .group 2 (reRep Char.isDigit 2 (some 2)),
        .group 3 (reRep Char.isDigit 4 (some 4))]

/-- The substitution pattern `(\d{1,2})[^\d](\d{1,2})[^\d](\d{2,4})`. -/
def reSubSep : RE :=
  rcat [.group 1 (reRep Char.isDigit 1 (some 2)), .cls clsNotDigit,
        .group 2 (reRep Char.isDigit 1 (some 2)), .cls clsNotDigit,
        .group 3 (reRep Char.isDigit 2 (some 4))]

/-- The replacement template `\1/\2/\3`. -/
def tplSlash : List Tpl := [.ref 1, .lc '/', .ref 2, .lc '/', .ref 3]

/-- `extract_dob` (etl_autorizaciones.py lines 52-62). -/
def extract_dob (text : Lstr) : Lstr :=
  match research reDobX text with
  | none => []
  | some x =>
    let dob := capStr text x.2.2 1
    let dob := (dob.map translateOcrDigit).map (fun c => if c = '-' then '/' else c)
    let dob := resub reSub8 tplSlash dob
    let dob := resub reSubSep tplSlash dob
    if decide (dob.length = 8) && !(dob.any (fun c => c = '/')) then
      dob.take 2 ++ '/' :: ((dob.drop 2).take 2 ++ '/' :: dob.drop 4)
    else dob

/-! ## Concrete documents used by the claim theorems -/

/-- A document whose strategy-A block pairs MARIA LOPEZ with the second
date while strategy C's decoupled matching would pair her with the first. -/
def textoC2 : Lstr :=
  lit "DOB: 01/02/1991\nPatient Name: LOPEZ, MARIA\nBROWN, DAVID DOB: 03/04/1992"

/-- The end-to-end scenario-1 document. -/
def textoC3 : Lstr := lit "Patient Name: SMITH, JOHN\nDOB: 03/04/1980"

/-- The end-to-end scenario-2 document: the name ends 150 characters
before the DOB label, inside the 200-character lookbehind window. -/
def textoC9 : Lstr :=
  lit "GARCIA, ANA\nSpecimen received and processed by the central laboratory. Results were reviewed and verified by the attending pathologist. Copies are kept on file.\nDOB: 03/05/1990"

/-! ## String lemmas -/

theorem countC_append (c : Char) (a b : Lstr) :
    countC c (a ++ b) = countC c a + countC c b := by
  induction a with
  | nil => simp [countC]
  | cons x xs ih => simp [countC, ih]; omega

theorem countC_eq_zero (c : Char) (l : Lstr) : countC c l = 0 ↔ c ∉ l := by
  induction l with
  | nil => simp [countC]
  | cons x xs ih =>
    simp only [countC, List.mem_cons]
    constructor
    · intro h
      rcases Nat.add_eq_zero.mp h with ⟨h1, h2⟩
      intro hc
      rcases hc with hc | hc
      · subst hc; simp at h1
      · exact (ih.mp h2) hc
    · intro h
      have hx : ¬(x = c) := fun he => h (Or.inl he.symm)
      simp [hx, ih.mpr (fun hc => h (Or.inr hc))]

theorem startsW_eq_append (p s : Lstr) :
    startsW p s = true ↔ ∃ t, s = p ++ t := by
  induction p generalizing s with
  | nil => simp [startsW]
  | cons a as ih =>
    cases s with
    | nil => simp [startsW]
    | cons b bs =>
      simp only [startsW, Bool.and_eq_true, decide_eq_true_eq, List.cons_append]
      rw [ih]
      constructor
      · rintro ⟨rfl, t, rfl⟩; exact ⟨t, rfl⟩
      · rintro ⟨t, h⟩
        injection h with h1 h2
        exact ⟨h1.symm, t, h2⟩

theorem containsSubstr_eq (p s : Lstr) :
    containsSubstr p s = true ↔ ∃ pre post, s = pre ++ p ++ post := by
  induction s with
  | nil =>
    simp only [containsSubstr, List.isEmpty_iff]
    constructor
    · rintro rfl; exact ⟨[], [], rfl⟩
    · rintro ⟨pre, post, h⟩
      rcases List.append_eq_nil.mp (List.append_eq_nil.mp h.symm).1 with ⟨_, h2⟩
      exact h2
  | cons c rest ih =>
    simp only [containsSubstr, Bool.or_eq_true]
    rw [startsW_eq_append, ih]
    constructor
    · rintro (⟨t, h⟩ | ⟨pre, post, h⟩)
      · exact ⟨[], t, by simp [h]⟩
      · exact ⟨c :: pre, post, by simp [h]⟩
    · rintro ⟨pre, post, h⟩
      cases pre with
      | nil => exact Or.inl ⟨post, by simpa using h⟩
      | cons x xs =>
        simp only [List.cons_append] at h
        exact Or.inr ⟨xs, post, (List.cons_eq_cons.mp h).2⟩

theorem pyReplaceF_count (x : Char) (pat rep : Lstr)
    (hp : countC x pat = 0) (hr : countC x rep = 0) :
    ∀ fuel s, countC x (pyReplaceF pat rep fuel s) = countC x s := by
  intro fuel
  induction fuel with
  | zero =>
    intro s
    cases s with
    | nil => rfl
    | cons c rest => rfl
  | succ n ih =>
    intro s
    cases s with
    | nil => rfl
    | cons c rest =>
      simp only [pyReplaceF]
      by_cases h : (!pat.isEmpty && startsW pat (c :: rest)) = true
      · rw [if_pos h]
        have hst : startsW pat (c :: rest) = true := by
          simp only [Bool.and_eq_true] at h
          exact h.2
        obtain ⟨t, ht⟩ := (startsW_eq_append pat (c :: rest)).mp hst
        have hdrop : List.drop pat.length (c :: rest) = t := by
          rw [ht, List.drop_left]
        rw [countC_append, ih, hdrop, ht, countC_append, hp, hr]
      · rw [if_neg h]
        simp only [countC, ih]

theorem pyReplaceF_no_occ (pat rep : Lstr) :
    ∀ fuel s, containsSubstr pat s = false → pyReplaceF pat rep fuel s = s := by
  intro fuel
  induction fuel with
  | zero =>
    intro s _
    cases s with
    | nil => rfl
    | cons c rest => rfl
  | succ n ih =>
    intro s hs
    cases s with
    | nil => rfl
    | cons c rest =>
      simp only [containsSubstr, Bool.or_eq_false_iff] at hs
      simp only [pyReplaceF, hs.1, Bool.and_false, Bool.false_eq_true,
        if_false, ih rest hs.2]

theorem pyReplaceF_self (pat : Lstr) :
    ∀ fuel s, pyReplaceF pat pat fuel s = s := by
  intro fuel
  induction fuel with
  | zero =>
    intro s
    cases s with
    | nil => rfl
    | cons c rest => rfl
  | succ n ih =>
    intro s
    cases s with
    | nil => rfl
    | cons c rest =>
      simp only [pyReplaceF]
      by_cases h : (!pat.isEmpty && startsW pat (c :: rest)) = true
      · rw [if_pos h]
        have hst : startsW pat (c :: rest) = true := by
          simp only [Bool.and_eq_true] at h
          exact h.2
        obtain ⟨t, ht⟩ := (startsW_eq_append pat (c :: rest)).mp hst
        have hdrop : List.drop pat.length (c :: rest) = t := by
          rw [ht, List.drop_left]
        rw [hdrop, ih, ht]
      · rw [if_neg h]
        rw [ih]

theorem collapseGo_head (p : Char → Bool) :
    ∀ l : Lstr, collapseGo p true l = [] ∨
      ∃ c cs, collapseGo p true l = c :: cs ∧ p c = false := by
  intro l
  induction l with
  | nil => exact Or.inl rfl
  | cons c rest ih =>
    simp only [collapseGo]
    by_cases h : p c = true
    · simpa [h] using ih
    · rw [Bool.not_eq_true] at h
      rw [if_neg (by simp [h])]
      exact Or.inr ⟨c, _, rfl, h⟩

theorem hasAdj_cons_false (p : Char → Bool) (a : Char) (l : Lstr)
    (ha : p a = false) : hasAdj p (a :: l) = hasAdj p l := by
  cases l with
  | nil => simp [hasAdj]
  | cons b bs => simp [hasAdj, ha]

theorem hasAdj_collapseGo (p : Char → Bool) :
    ∀ (l : Lstr) (b : Bool), hasAdj p (collapseGo p b l) = false := by
  intro l
  induction l with
  | nil => intro b; rfl
  | cons c rest ih =>
    intro b
    simp only [collapseGo]
    by_cases h : p c = true
    · rw [if_pos h]
      cases b with
      | true => exact ih true
      | false =>
        simp only [Bool.false_eq_true, if_false]
        rcases collapseGo_head p rest with he | ⟨d, ds, hd, hpd⟩
        · rw [he]; rfl
        · rw [hd]
          simp only [hasAdj, hpd, Bool.and_false, Bool.false_or]
          rw [← hd]
          exact ih true
    · rw [Bool.not_eq_true] at h
      rw [if_neg (by simp [h])]
      rw [hasAdj_cons_false p c _ h]
      exact ih false

theorem mem_collapseGo (p : Char → Bool) :
    ∀ (l : Lstr) (b : Bool) (x : Char), x ∈ collapseGo p b l →
      x = ' ' ∨ (x ∈ l ∧ p x = false) := by
  intro l
  induction l with
  | nil => intro b x hx; cases hx
  | cons c rest ih =>
    intro b x hx
    simp only [collapseGo] at hx
    by_cases h : p c = true
    · rw [if_pos h] at hx
      cases b with
      | true =>
        rcases ih true x hx with h1 | ⟨h1, h2⟩
        · exact Or.inl h1
        · exact Or.inr ⟨List.mem_cons_of_mem c h1, h2⟩
      | false =>
        simp only [Bool.false_eq_true, if_false, List.mem_cons] at hx
        rcases hx with h1 | h1
        · exact Or.inl h1
        · rcases ih true x h1 with h2 | ⟨h2, h3⟩
          · exact Or.inl h2
          · exact Or.inr ⟨List.mem_cons_of_mem c h2, h3⟩
    · rw [Bool.not_eq_true] at h
      rw [if_neg (by simp [h])] at hx
      rcases List.mem_cons.mp hx with h1 | h1
      · subst h1; exact Or.inr ⟨List.mem_cons_self _ _, h⟩
      · rcases ih false x h1 with h2 | ⟨h2, h3⟩
        · exact Or.inl h2
        · exact Or.inr ⟨List.mem_cons_of_mem c h2, h3⟩

theorem countC_collapseGo (p : Char → Bool) (x : Char)
    (hx : p x = false) (hsp : x ≠ ' ') :
    ∀ (l : Lstr) (b : Bool), countC x (collapseGo p b l) = countC x l := by
  intro l
  induction l with
  | nil => intro b; rfl
  | cons c rest ih =>
    intro b
    simp only [collapseGo]
    by_cases h : p c = true
    · have hc : ¬(c = x) := by
        intro he; subst he; rw [h] at hx; cases hx
      rw [if_pos h]
      cases b with
      | true => simp [countC, hc, ih true]
      | false =>
        simp only [Bool.false_eq_true, if_false, countC, ih true]
        have hs2 : ¬(' ' = x) := fun he => hsp he.symm
        simp [hs2, hc]
    · rw [Bool.not_eq_true] at h
      rw [if_neg (by simp [h])]
      simp [countC, ih false]

theorem collapseGo_eq_self (p : Char → Bool) :
    ∀ (n : Nat) (l : Lstr), l.length ≤ n → hasAdj p l = false →
      (∀ x ∈ l, p x = true → x = ' ') → collapseGo p false l = l := by
  intro n
  induction n with
  | zero =>
    intro l hl _ _
    cases l with
    | nil => rfl
    | cons c rest => simp at hl
  | succ n ih =>
    intro l hl hadj hsp
    cases l with
    | nil => rfl
    | cons c rest =>
      simp only [collapseGo]
      by_cases h : p c = true
      · rw [if_pos h]
        simp only [Bool.false_eq_true, if_false]
        have hc : c = ' ' := hsp c (List.mem_cons_self _ _) h
        subst hc
        cases rest with
        | nil => rfl
        | cons d ds =>
          have hd : p d = false := by
            by_contra hd
            rw [Bool.not_eq_false] at hd
            simp [hasAdj, h, hd] at hadj
          simp only [collapseGo, hd, Bool.false_eq_true, if_neg, if_false]
          have : collapseGo p false ds = ds := by
            apply ih ds (by simp at hl; omega)
            · have hadj2 : hasAdj p (d :: ds) = false := by
                simp only [hasAdj, Bool.or_eq_false_iff] at hadj
                exact hadj.2
              rw [hasAdj_cons_false p d ds hd] at hadj2
              exact hadj2
            · intro x hx hpx
              exact hsp x (List.mem_cons_of_mem _ (List.mem_cons_of_mem _ hx)) hpx
          rw [this]
      · rw [Bool.not_eq_true] at h
        rw [if_neg (by simp [h])]
        have : collapseGo p false rest = rest := by
          apply ih rest (by simp at hl; omega)
          · rw [hasAdj_cons_false p c _ h] at hadj; exact hadj
          · intro x hx hpx
            exact hsp x (List.mem_cons_of_mem _ hx) hpx
        rw [this]

theorem countC_mapCR_nl (l : Lstr) :
    countC '\n' (l.map (fun c => if c = '\r' then '\n' else c)) =
      countC '\n' l + countC '\r' l := by
  induction l with
  | nil => rfl
  | cons c rest ih =>
    by_cases h : c = '\r'
    · subst h
      simp [countC, ih]
      omega
    · simp [countC, ih, h]
      omega

theorem countC_mapCR_cr (l : Lstr) :
    countC '\r' (l.map (fun c => if c = '\r' then '\n' else c)) = 0 := by
  induction l with
  | nil => rfl
  | cons c rest ih =>
    by_cases h : c = '\r'
    · subst h
      simp [countC, ih]
    · simp [countC, ih, h]

theorem mapCR_eq_self (l : Lstr) (h : countC '\r' l = 0) :
    l.map (fun c => if c = '\r' then '\n' else c) = l := by
  induction l with
  | nil => rfl
  | cons c rest ih =>
    simp only [countC] at h
    rcases Nat.add_eq_zero.mp h with ⟨h1, h2⟩
    have hc : ¬(c = '\r') := by
      intro he; subst he; simp at h1
    simp [hc, ih h2]

theorem pyUpper_space (c : Char) : pyUpper c = ' ' ↔ c = ' ' := by
  constructor
  · intro h
    by_contra hc
    revert h
    unfold pyUpper
    split <;> simp_all
  · intro h; subst h; rfl

theorem isDigit_pyUpper (c : Char) : (pyUpper c).isDigit = c.isDigit := by
  unfold pyUpper
  split <;> rfl

theorem hasDigitRun3_map_pyUpper :
    ∀ l : Lstr, hasDigitRun3 (l.map pyUpper) = hasDigitRun3 l
  | [] => rfl
  | [a] => rfl
  | [a, b] => rfl
  | a :: b :: c :: rest => by
    simp only [List.map_cons, hasDigitRun3, isDigit_pyUpper]
    rw [show ((pyUpper b :: pyUpper c :: rest.map pyUpper) =
        ((b :: c :: rest).map pyUpper)) from rfl]
    rw [hasDigitRun3_map_pyUpper (b :: c :: rest)]

theorem hasDigitRun3_eq :
    ∀ l : Lstr, hasDigitRun3 l = true ↔
      ∃ pre a b c post, l = pre ++ a :: b :: c :: post ∧
        a.isDigit = true ∧ b.isDigit = true ∧ c.isDigit = true
  | [] => by
    simp only [hasDigitRun3]
    constructor
    · intro h; cases h
    · rintro ⟨pre, a, b, c, post, h, _⟩
      rcases List.append_eq_nil.mp h.symm with ⟨_, h2⟩
      cases h2
  | [a0] => by
    simp only [hasDigitRun3]
    constructor
    · intro h; cases h
    · rintro ⟨pre, a, b, c, post, h, _⟩
      rcases pre with _ | ⟨x, xs⟩
      · simp at h
      · simp only [List.cons_append] at h
        injection h with _ h2
        rcases List.append_eq_nil.mp h2.symm with ⟨_, h3⟩
        cases h3
  | [a0, b0] => by
    simp only [hasDigitRun3]
    constructor
    · intro h; cases h
    · rintro ⟨pre, a, b, c, post, h, _⟩
      rcases pre with _ | ⟨x, xs⟩
      · simp at h
      · simp only [List.cons_append] at h
        injection h with _ h2
        rcases xs with _ | ⟨y, ys⟩
        · simp at h2
        · simp only [List.cons_append] at h2
          injection h2 with _ h3
          rcases List.append_eq_nil.mp h3.symm with ⟨_, h4⟩
          cases h4
  | a0 :: b0 :: c0 :: rest => by
    simp only [hasDigitRun3, Bool.or_eq_true, Bool.and_eq_true]
    rw [hasDigitRun3_eq (b0 :: c0 :: rest)]
    constructor
    · rintro (⟨⟨ha, hb⟩, hc⟩ | ⟨pre, a, b, c, post, h, ha, hb, hc⟩)
      · exact ⟨[], a0, b0, c0, rest, rfl, ha, hb, hc⟩
      · exact ⟨a0 :: pre, a, b, c, post, by simp [h], ha, hb, hc⟩
    · rintro ⟨pre, a, b, c, post, h, ha, hb, hc⟩
      rcases pre with _ | ⟨x, xs⟩
      · simp only [List.nil_append] at h
        injection h with h1 h2
        injection h2 with h3 h4
        injection h4 with h5 h6
        subst h1; subst h3; subst h5
        exact Or.inl ⟨⟨ha, hb⟩, hc⟩
      · simp only [List.cons_append] at h
        injection h with _ h2
        exact Or.inr ⟨xs, a, b, c, post, h2, ha, hb, hc⟩

/-! ## Structural lemmas about the extraction pipeline -/

theorem append_cons_ne_nil (a : Lstr) (c : Char) (b : Lstr) :
    a ++ c :: b ≠ [] := by
  cases a <;> simp

theorem valid_ne_nil (n : Lstr) (h : es_nombre_valido n = true) : n ≠ [] := by
  intro hn
  subst hn
  exact absurd h (by decide)

theorem fallbackFecha_ne_nil (f d : Lstr) (h : fallbackFecha f = Except.ok d) :
    d ≠ [] := by
  unfold fallbackFecha at h
  cases hs : research reFecha f with
  | none => rw [hs] at h; cases h
  | some x =>
    rw [hs] at h
    simp only [Except.ok.injEq] at h
    rw [← h]
    exact append_cons_ne_nil _ _ _

theorem nf_ok_ne_nil (raw d : Lstr) (h : normalizar_fecha raw = Except.ok d) :
    d ≠ [] := by
  unfold normalizar_fecha at h
  split at h
  · split at h
    · exact fallbackFecha_ne_nil _ _ h
    · simp only [Except.ok.injEq] at h
      rw [← h]
      unfold fmtDate
      exact append_cons_ne_nil _ _ _
  · exact fallbackFecha_ne_nil _ _ h

theorem truthy_of_ne_nil (s : Lstr) (h : s ≠ []) : truthy (some s) = true := by
  cases s with
  | nil => exact absurd rfl h
  | cons c rest => rfl

theorem tryLinea_ok (texto : Lstr) :
    ∀ (ms : List (MState × MState × Caps)) (n d : Lstr),
      tryLinea texto ms = some (n, d) →
      es_nombre_valido n = true ∧ ∃ raw, normalizar_fecha raw = Except.ok d := by
  intro ms
  induction ms with
  | nil => intro n d h; simp [tryLinea] at h
  | cons m rest ih =>
    intro n d h
    obtain ⟨m1, m2, cp⟩ := m
    simp only [tryLinea] at h
    split at h
    · exact ih n d h
    · rename_i dob hnf
      split at h
      · rename_i hv
        have hpair := Option.some.inj h
        rw [Prod.mk.injEq] at hpair
        obtain ⟨h1, h2⟩ := hpair
        subst h1
        subst h2
        exact ⟨hv, pyStrip (capStr texto cp 3), hnf⟩
      · exact ih n d h

theorem buscarLineaGo_ok (texto : Lstr) :
    ∀ (rs : List RE) (n d : Lstr),
      buscarLineaGo texto rs = some (n, d) →
      es_nombre_valido n = true ∧ ∃ raw, normalizar_fecha raw = Except.ok d := by
  intro rs
  induction rs with
  | nil => intro n d h; simp [buscarLineaGo] at h
  | cons r rest ih =>
    intro n d h
    simp only [buscarLineaGo] at h
    split at h
    · rename_i ht
      exact tryLinea_ok texto _ n d (ht.trans h)
    · exact ih n d h

theorem linea_shape (t : Lstr) :
    buscar_por_linea t = (none, none) ∨
    ∃ n d, buscar_por_linea t = (some n, some d) ∧
      es_nombre_valido n = true ∧ ∃ raw, normalizar_fecha raw = Except.ok d := by
  cases hg : buscarLineaGo t NAME_DOB_REGEXES with
  | none =>
    left
    simp [buscar_por_linea, hg]
  | some p =>
    right
    refine ⟨p.1, p.2, ?_, ?_⟩
    · simp [buscar_por_linea, hg]
    · exact buscarLineaGo_ok t _ p.1 p.2 (by rw [hg])

theorem tryProxStep_ok (texto : Lstr) (st : MState) (cp : Caps) (n d : Lstr)
    (h : tryProxStep texto st cp = some (n, d)) :
    es_nombre_valido n = true ∧ ∃ raw, normalizar_fecha raw = Except.ok d := by
  unfold tryProxStep at h
  split at h
  · cases h
  · rename_i dob hnf
    split at h
    · cases h
    · rename_i x hm
      simp only [] at h
      split at h
      · rename_i hv
        have hpair := Option.some.inj h
        rw [Prod.mk.injEq] at hpair
        obtain ⟨h1, h2⟩ := hpair
        subst h1
        subst h2
        exact ⟨hv, capStr texto cp 1, hnf⟩
      · cases h

theorem tryProx_ok (texto : Lstr) :
    ∀ (ms : List (MState × MState × Caps)) (n d : Lstr),
      tryProx texto ms = some (n, d) →
      es_nombre_valido n = true ∧ ∃ raw, normalizar_fecha raw = Except.ok d := by
  intro ms
  induction ms with
  | nil => intro n d h; simp [tryProx] at h
  | cons m rest ih =>
    intro n d h
    obtain ⟨m1, m2, cp⟩ := m
    simp only [tryProx] at h
    split at h
    · rename_i p hs
      exact tryProxStep_ok texto m1 cp n d (hs.trans h)
    · exact ih n d h


theorem buscarProxGo_ok (texto : Lstr) :
    ∀ (rs : List RE) (n d : Lstr),
      buscarProxGo texto rs = some (n, d) →
      es_nombre_valido n = true ∧ ∃ raw, normalizar_fecha raw = Except.ok d := by
  intro rs
  induction rs with
  | nil => intro n d h; simp [buscarProxGo] at h
  | cons r rest ih =>
    intro n d h
    simp only [buscarProxGo] at h
    split at h
    · rename_i ht
      exact tryProx_ok texto _ n d (ht.trans h)
    · exact ih n d h

theorem prox_shape (t : Lstr) :
    buscar_por_proximidad t = (none, none) ∨
    ∃ n d, buscar_por_proximidad t = (some n, some d) ∧
      es_nombre_valido n = true ∧ ∃ raw, normalizar_fecha raw = Except.ok d := by
  cases hg : buscarProxGo t DOB_REGEXES with
  | none =>
    left
    simp [buscar_por_proximidad, hg]
  | some p =>
    right
    refine ⟨p.1, p.2, ?_, ?_⟩
    · simp [buscar_por_proximidad, hg]
    · exact buscarProxGo_ok t _ p.1 p.2 (by rw [hg])

theorem findFirstDob_ok (texto : Lstr) :
    ∀ (rs : List RE) (d : Lstr), findFirstDob texto rs = some d →
      ∃ raw, normalizar_fecha raw = Except.ok d := by
  intro rs
  induction rs with
  | nil => intro d h; simp [findFirstDob] at h
  | cons r rest ih =>
    intro d h
    simp only [findFirstDob] at h
    split at h
    · exact ih d h
    · rename_i x hs
      split at h
      · rename_i d0 hnf
        have := Option.some.inj h
        subst this
        exact ⟨capStr texto x.2.2 1, hnf⟩
      · exact ih d h

theorem findNameOnly_ok (texto : Lstr) :
    ∀ (rs : List RE) (n : Lstr), findNameOnly texto rs = some n →
      es_nombre_valido n = true := by
  intro rs
  induction rs with
  | nil => intro n h; simp [findNameOnly] at h
  | cons r rest ih =>
    intro n h
    simp only [findNameOnly] at h
    split at h
    · exact ih n h
    · rename_i x hs
      split at h
      · rename_i hv
        have := Option.some.inj h
        subst this
        exact hv
      · exact ih n h

theorem estrategia_shape (t : Lstr) :
    estrategia_c t = (none, none) ∨
    ∃ n d, estrategia_c t = (some n, some d) ∧
      es_nombre_valido n = true ∧ ∃ raw, normalizar_fecha raw = Except.ok d := by
  cases hfd : findFirstDob t DOB_REGEXES with
  | none =>
    left
    simp [estrategia_c, hfd, truthy]
  | some d =>
    by_cases hd : truthy (some d) = true
    · cases hn : findNameOnly t NAME_ONLY_REGEXES with
      | none =>
        left
        simp [estrategia_c, hfd, hd, hn]
      | some n =>
        right
        refine ⟨n, d, ?_, findNameOnly_ok t _ n hn, findFirstDob_ok t _ d hfd⟩
        simp [estrategia_c, hfd, hd, hn]
    · left
      rw [Bool.not_eq_true] at hd
      simp [estrategia_c, hfd, hd]

/-! ## Characterization of the name validator -/

theorem ifchain_false (p : Prop) [Decidable p] (c2 c3 c4 : Bool) :
    (if p then false else if c2 then false else if c3 then false
     else if c4 then false else true) = false ↔
    (p ∨ c2 = true ∨ c3 = true ∨ c4 = true) := by
  by_cases hp : p <;> cases c2 <;> cases c3 <;> cases c4 <;> simp [hp]

theorem es_nombre_valido_false_iff (s : Lstr) :
    es_nombre_valido s = false ↔
      (s.length < 5 ∨ ¬(' ' ∈ s) ∨
       (∃ pre a b c post, s = pre ++ a :: b :: c :: post ∧
          a.isDigit = true ∧ b.isDigit = true ∧ c.isDigit = true) ∨
       (∃ neg ∈ NEGATIVOS, ∃ pre post, s.map pyUpper = pre ++ neg ++ post)) := by
  unfold es_nombre_valido
  rw [ifchain_false]
  have e1 : (s.map pyUpper).length < 5 ↔ s.length < 5 := by
    rw [List.length_map]
  have e2 : (NEGATIVOS.any (fun neg => containsSubstr neg (s.map pyUpper)) = true) ↔
      (∃ neg ∈ NEGATIVOS, ∃ pre post, s.map pyUpper = pre ++ neg ++ post) := by
    rw [List.any_eq_true]
    constructor
    · rintro ⟨neg, hm, hc⟩
      exact ⟨neg, hm, (containsSubstr_eq neg _).mp hc⟩
    · rintro ⟨neg, hm, hd⟩
      exact ⟨neg, hm, (containsSubstr_eq neg _).mpr hd⟩
  have e3 : ((!((s.map pyUpper).any (fun c => c = ' '))) = true) ↔ ¬(' ' ∈ s) := by
    constructor
    · intro h hsp
      have : (s.map pyUpper).any (fun c => c = ' ') = true :=
        List.any_eq_true.mpr ⟨' ', List.mem_map_of_mem pyUpper hsp, by decide⟩
      rw [this] at h
      cases h
    · intro h
      rw [Bool.not_eq_true']
      by_contra hne
      rw [Bool.not_eq_false] at hne
      obtain ⟨x, hx, he⟩ := List.any_eq_true.mp hne
      rw [decide_eq_true_eq] at he
      subst he
      obtain ⟨c, hc, hcu⟩ := List.mem_map.mp hx
      rw [pyUpper_space] at hcu
      subst hcu
      exact h hc
  have e4 : (hasDigitRun3 (s.map pyUpper) = true) ↔
      (∃ pre a b c post, s = pre ++ a :: b :: c :: post ∧
        a.isDigit = true ∧ b.isDigit = true ∧ c.isDigit = true) := by
    rw [hasDigitRun3_map_pyUpper, hasDigitRun3_eq]
  rw [e1, e2, e3, e4]
  constructor
  · rintro (h | h | h | h)
    · exact Or.inl h
    · exact Or.inr (Or.inr (Or.inr h))
    · exact Or.inr (Or.inl h)
    · exact Or.inr (Or.inr (Or.inl h))
  · rintro (h | h | h | h)
    · exact Or.inl h
    · exact Or.inr (Or.inr (Or.inl h))
    · exact Or.inr (Or.inr (Or.inr h))
    · exact Or.inr (Or.inl h)

/-! ## Invariants of normalizar_ocr -/

theorem countC_pyReplace (x : Char) (s pat rep : Lstr)
    (hp : countC x pat = 0) (hr : countC x rep = 0) :
    countC x (pyReplace s pat rep) = countC x s :=
  pyReplaceF_count x pat rep hp hr s.length s

theorem ocr_count_cr (t : Lstr) : countC '\r' (normalizar_ocr t) = 0 := by
  simp only [normalizar_ocr, collapseRun]
  rw [countC_collapseGo isST '\r' (by decide) (by decide)]
  exact countC_mapCR_cr _

theorem ocr_count_tab (t : Lstr) : countC '\t' (normalizar_ocr t) = 0 := by
  rw [countC_eq_zero]
  intro hmem
  simp only [normalizar_ocr, collapseRun] at hmem
  rcases mem_collapseGo isST _ _ '\t' hmem with h | ⟨_, hfalse⟩
  · exact absurd h (by decide)
  · exact absurd hfalse (by decide)

theorem ocr_no_adjacent (t : Lstr) : hasAdj isST (normalizar_ocr t) = false := by
  simp only [normalizar_ocr, collapseRun]
  exact hasAdj_collapseGo isST _ false

theorem ocr_count_nl (t : Lstr) :
    countC '\n' (normalizar_ocr t) = countC '\n' t + countC '\r' t := by
  simp only [normalizar_ocr, collapseRun]
  rw [countC_collapseGo isST '\n' (by decide) (by decide)]
  rw [countC_mapCR_nl]
  rw [countC_pyReplace '\n' _ (lit " O/") (lit " 0/") (by decide) (by decide)]
  rw [countC_pyReplace '\n' _ (lit "0/") (lit "0/") (by decide) (by decide)]
  rw [countC_pyReplace '\n' _ (lit "D 0 B") (lit "DOB") (by decide) (by decide)]
  rw [countC_pyReplace '\n' _ (lit "D.O.B") (lit "DOB") (by decide) (by decide)]
  rw [countC_pyReplace '\n' _ (lit "D0 B") (lit "DOB") (by decide) (by decide)]
  rw [countC_pyReplace '\n' _ (lit "D0B") (lit "DOB") (by decide) (by decide)]
  rw [countC_pyReplace '\r' _ (lit " O/") (lit " 0/") (by decide) (by decide)]
  rw [countC_pyReplace '\r' _ (lit "0/") (lit "0/") (by decide) (by decide)]
  rw [countC_pyReplace '\r' _ (lit "D 0 B") (lit "DOB") (by decide) (by decide)]
  rw [countC_pyReplace '\r' _ (lit "D.O.B") (lit "DOB") (by decide) (by decide)]
  rw [countC_pyReplace '\r' _ (lit "D0 B") (lit "DOB") (by decide) (by decide)]
  rw [countC_pyReplace '\r' _ (lit "D0B") (lit "DOB") (by decide) (by decide)]

theorem fallback_error_no_match (f : Lstr)
    (h : fallbackFecha f = Except.error ()) : research reFecha f = none := by
  unfold fallbackFecha at h
  split at h
  · rename_i hres
    exact hres
  · cases h

theorem truthy_none : truthy (none : Option Lstr) = false := rfl

theorem extraer_eq_linea (t n d : Lstr)
    (h : buscar_por_linea t = (some n, some d)) (hn : n ≠ []) (hd : d ≠ []) :
    extraer_nombre_dob t = (some n, some d) := by
  simp only [extraer_nombre_dob, h]
  rw [truthy_of_ne_nil n hn, truthy_of_ne_nil d hd]
  simp

theorem extraer_eq_prox (t n d : Lstr)
    (h1 : buscar_por_linea t = (none, none))
    (h2 : buscar_por_proximidad t = (some n, some d)) (hn : n ≠ []) (hd : d ≠ []) :
    extraer_nombre_dob t = (some n, some d) := by
  simp only [extraer_nombre_dob, h1, h2, truthy_none, Bool.and_self,
    Bool.false_eq_true, if_false]
  rw [truthy_of_ne_nil n hn, truthy_of_ne_nil d hd]
  simp

theorem extraer_eq_c (t : Lstr)
    (h1 : buscar_por_linea t = (none, none))
    (h2 : buscar_por_proximidad t = (none, none)) :
    extraer_nombre_dob t = estrategia_c t := by
  simp only [extraer_nombre_dob, h1, h2, truthy_none, Bool.and_self,
    Bool.false_eq_true, if_false]

/-! ## Claim theorems -/

/-- C1: for every input text, `extraer_nombre_dob` returns either a
complete pair whose name passes `es_nombre_valido` and whose date is an
output of `normalizar_fecha`, or the pair `(None, None)`; it never returns
a name without a date or a date without a name. -/
theorem c1_extraer_all_or_nothing (t : Lstr) :
    extraer_nombre_dob t = (none, none) ∨
    ∃ n d, extraer_nombre_dob t = (some n, some d) ∧
      es_nombre_valido n = true ∧ ∃ raw, normalizar_fecha raw = Except.ok d := by
  rcases linea_shape t with h1 | ⟨n, d, h1, hv, hr⟩
  · rcases prox_shape t with h2 | ⟨n, d, h2, hv, hr⟩
    · rcases estrategia_shape t with h3 | ⟨n, d, h3, hv, hr⟩
      · left
        rw [extraer_eq_c t h1 h2]
        exact h3
      · right
        refine ⟨n, d, ?_, hv, hr⟩
        rw [extraer_eq_c t h1 h2]
        exact h3
    · right
      refine ⟨n, d, ?_, hv, hr⟩
      obtain ⟨raw, hraw⟩ := hr
      exact extraer_eq_prox t n d h1 h2 (valid_ne_nil n hv) (nf_ok_ne_nil raw d hraw)
  · right
    refine ⟨n, d, ?_, hv, hr⟩
    obtain ⟨raw, hraw⟩ := hr
    exact extraer_eq_linea t n d h1 (valid_ne_nil n hv) (nf_ok_ne_nil raw d hraw)

/-- C2: whenever strategy A (`buscar_por_linea`) succeeds, the orchestrator
returns exactly its pair; on `textoC2` strategy A and the strategy-C
decoupled matching disagree on the date, and the orchestrator returns the
strategy-A pair. -/
theorem c2_strategy_a_precedence :
    (∀ (t n d : Lstr), buscar_por_linea t = (some n, some d) →
       extraer_nombre_dob t = (some n, some d)) ∧
    buscar_por_linea textoC2 = (some (lit "LOPEZ MARIA"), some (lit "03-04-1992")) ∧
    estrategia_c textoC2 = (some (lit "LOPEZ MARIA"), some (lit "01-02-1991")) ∧
    extraer_nombre_dob textoC2 =
      (some (lit "LOPEZ MARIA"), some (lit "03-04-1992")) := by
  refine ⟨?_, by decide, by decide, by decide⟩
  intro t n d h
  rcases linea_shape t with h1 | ⟨n', d', h1, hv, hr⟩
  · rw [h1] at h
    simp at h
  · have he := h1.symm.trans h
    rw [Prod.mk.injEq] at he
    obtain ⟨he1, he2⟩ := he
    have hn := Option.some.inj he1
    have hd := Option.some.inj he2
    subst hn
    subst hd
    obtain ⟨raw, hraw⟩ := hr
    exact extraer_eq_linea t n' d' h (valid_ne_nil n' hv) (nf_ok_ne_nil raw d' hraw)

/-- C2 witness: the precedence implication applied to the concrete
document `textoC2`. -/
theorem c2_strategy_a_precedence_witness :
    extraer_nombre_dob textoC2 =
      (some (lit "LOPEZ MARIA"), some (lit "03-04-1992")) :=
  c2_strategy_a_precedence.1 textoC2 _ _ c2_strategy_a_precedence.2.1

/-- C3 counterexample: on the scenario-1 text the pipeline does not return
the reversed, title-cased pair ("John Smith", "03-04-1980") the claim
predicts. -/
theorem c3_scenario1_counterexample :
    extraer_nombre_dob textoC3 ≠
      (some (lit "John Smith"), some (lit "03-04-1980")) := by decide

/-- C3 amended: on "Patient Name: SMITH, JOHN" followed by
"DOB: 03/04/1980" the pipeline returns ("SMITH JOHN", "03-04-1980") - the
name stays in Family-Given order and is uppercased (`formar_nombre` places
the captured family name first and applies `.upper()`, not title case);
the date is emitted as MM-DD-YYYY. -/
theorem c3_scenario1_result :
    extraer_nombre_dob textoC3 =
      (some (lit "SMITH JOHN"), some (lit "03-04-1980")) ∧
    buscar_por_linea textoC3 =
      (some (lit "SMITH JOHN"), some (lit "03-04-1980")) := by decide

/-- C4 counterexample: the year-1899 date string is accepted (via the
regex fallback, which performs no year check), not rejected with
`DateParseError` as claimed. -/
theorem c4_year_range_counterexample :
    normalizar_fecha (lit "01/02/1899") = Except.ok (lit "01-02-1899") ∧
    normalizar_fecha (lit "01/02/1899") ≠ Except.error () := by decide

/-- C4 amended: `normalizar_fecha` raises `DateParseError` only when the
fallback regex finds no day/month/year triple in the unified string; the
lenient-parse year check does not make 1899 or 2101 fail, because the
fallback then accepts the same digits without a year check.  Years 1900
and 2100 are accepted (via the lenient parse), 1899 and 2101 are accepted
too (via the fallback), and an input with no resolvable triple errors. -/
theorem c4_year_range_amended :
    (∀ s : Lstr, normalizar_fecha s = Except.error () →
       research reFecha (unifySeps s) = none) ∧
    normalizar_fecha (lit "01/02/1900") = Except.ok (lit "01-02-1900") ∧
    normalizar_fecha (lit "01/02/2100") = Except.ok (lit "01-02-2100") ∧
    normalizar_fecha (lit "01/02/2101") = Except.ok (lit "01-02-2101") ∧
    normalizar_fecha (lit "hello") = Except.error () := by
  refine ⟨?_, by decide, by decide, by decide, by decide⟩
  intro s h
  unfold normalizar_fecha at h
  split at h
  · split at h
    · exact fallback_error_no_match _ h
    · cases h
  · exact fallback_error_no_match _ h

/-- C4 witness: the error characterization applied to the concrete
unparseable input "hello". -/
theorem c4_year_range_witness :
    research reFecha (unifySeps (lit "hello")) = none :=
  c4_year_range_amended.1 (lit "hello") (by decide)

/-- C5 counterexample: `normalizar_ocr` is not idempotent: collapsing the
tabs of "D\t0\tB" creates the literal "D 0 B", which the substitution
table rewrites to "DOB" only on the second application. -/
theorem c5_ocr_idempotence_counterexample :
    normalizar_ocr (normalizar_ocr (lit "D\t0\tB")) ≠
      normalizar_ocr (lit "D\t0\tB") := by decide

/-- C5 amended: `normalizar_ocr` is idempotent on every input whose
normalized form contains none of the substitution table's left-hand sides
("D0B", "D0 B", "D.O.B", "D 0 B", " O/"); in general whitespace collapse
can create a new left-hand side, so a second application may differ. -/
theorem c5_ocr_conditional_idempotence (t : Lstr)
    (h1 : containsSubstr (lit "D0B") (normalizar_ocr t) = false)
    (h2 : containsSubstr (lit "D0 B") (normalizar_ocr t) = false)
    (h3 : containsSubstr (lit "D.O.B") (normalizar_ocr t) = false)
    (h4 : containsSubstr (lit "D 0 B") (normalizar_ocr t) = false)
    (h5 : containsSubstr (lit " O/") (normalizar_ocr t) = false) :
    normalizar_ocr (normalizar_ocr t) = normalizar_ocr t := by
  have r1 : pyReplace (normalizar_ocr t) (lit "D0B") (lit "DOB") = normalizar_ocr t :=
    pyReplaceF_no_occ _ _ _ _ h1
  have r2 : pyReplace (normalizar_ocr t) (lit "D0 B") (lit "DOB") = normalizar_ocr t :=
    pyReplaceF_no_occ _ _ _ _ h2
  have r3 : pyReplace (normalizar_ocr t) (lit "D.O.B") (lit "DOB") = normalizar_ocr t :=
    pyReplaceF_no_occ _ _ _ _ h3
  have r4 : pyReplace (normalizar_ocr t) (lit "D 0 B") (lit "DOB") = normalizar_ocr t :=
    pyReplaceF_no_occ _ _ _ _ h4
  have r5 : pyReplace (normalizar_ocr t) (lit "0/") (lit "0/") = normalizar_ocr t :=
    pyReplaceF_self _ _ _
  have r6 : pyReplace (normalizar_ocr t) (lit " O/") (lit " 0/") = normalizar_ocr t :=
    pyReplaceF_no_occ _ _ _ _ h5
  have rmap : (normalizar_ocr t).map (fun c => if c = '\r' then '\n' else c) =
      normalizar_ocr t :=
    mapCR_eq_self _ (ocr_count_cr t)
  have rcol : collapseGo isST false (normalizar_ocr t) = normalizar_ocr t := by
    apply collapseGo_eq_self isST (normalizar_ocr t).length _ le_rfl (ocr_no_adjacent t)
    intro x hx hpx
    have htab : '\t' ∉ normalizar_ocr t := (countC_eq_zero _ _).mp (ocr_count_tab t)
    simp only [isST, Bool.or_eq_true, decide_eq_true_eq] at hpx
    rcases hpx with hsp | htb
    · exact hsp
    · subst htb
      exact absurd hx htab
  conv_lhs => rw [normalizar_ocr]
  rw [r1, r2, r3, r4, r5, r6, rmap, collapseRun, rcol]

/-- C5 witness: the conditional idempotence applied to "ab cd", whose
normalized form contains no substitution left-hand side. -/
theorem c5_ocr_conditional_idempotence_witness :
    normalizar_ocr (normalizar_ocr (lit "ab cd")) = normalizar_ocr (lit "ab cd") :=
  c5_ocr_conditional_idempotence (lit "ab cd")
    (by decide) (by decide) (by decide) (by decide) (by decide)

/-- C6 counterexample: a CR-LF line break is not preserved as a single
newline: the carriage return and the line feed each become a newline, so
"a\r\nb" normalizes to "a\n\nb". -/
theorem c6_crlf_counterexample :
    normalizar_ocr (lit "a\r\nb") = lit "a\n\nb" ∧
    normalizar_ocr (lit "a\r\nb") ≠ lit "a\nb" := by decide

/-- C6 amended: the output of `normalizar_ocr` contains no tab, no two
adjacent space/tab characters and no carriage return, and its newline
count is the input's newline count plus its carriage-return count (each CR
becomes its own newline, so a CR-LF pair yields two newlines rather than
one). -/
theorem c6_whitespace_invariants (t : Lstr) :
    countC '\t' (normalizar_ocr t) = 0 ∧
    hasAdj isST (normalizar_ocr t) = false ∧
    countC '\r' (normalizar_ocr t) = 0 ∧
    countC '\n' (normalizar_ocr t) = countC '\n' t + countC '\r' t :=
  ⟨ocr_count_tab t, ocr_no_adjacent t, ocr_count_cr t, ocr_count_nl t⟩

/-- C7: `es_nombre_valido` returns false exactly when the candidate is
shorter than 5 characters, contains no space, contains three consecutive
digits, or its uppercase form contains a blocklist entry as a substring;
"Jo", "O'BRIEN" and "LOS ANGELES CLINIC" are invalid and "Maria Lopez" is
valid. -/
theorem c7_name_validator_rules :
    (∀ s : Lstr, es_nombre_valido s = false ↔
      (s.length < 5 ∨ ¬(' ' ∈ s) ∨
       (∃ pre a b c post, s = pre ++ a :: b :: c :: post ∧
          a.isDigit = true ∧ b.isDigit = true ∧ c.isDigit = true) ∨
       (∃ neg ∈ NEGATIVOS, ∃ pre post, s.map pyUpper = pre ++ neg ++ post))) ∧
    es_nombre_valido (lit "Jo") = false ∧
    es_nombre_valido (lit "O'BRIEN") = false ∧
    es_nombre_valido (lit "LOS ANGELES CLINIC") = false ∧
    es_nombre_valido (lit "Maria Lopez") = true :=
  ⟨es_nombre_valido_false_iff, by decide, by decide, by decide, by decide⟩

/-- C7 witness: the characterization applied to the concrete candidate
"ab", rejected because its length is below five. -/
theorem c7_name_validator_rules_witness : es_nombre_valido (lit "ab") = false :=
  (c7_name_validator_rules.1 (lit "ab")).mpr (Or.inl (by decide))

/-- C8: on the claimed input the OCR-confusable date token "O5/1O/1985" is
never captured, because the capture class `[0-9OQIlSsCBZ]{6,12}` admits no
slash, so `extract_dob` returns the empty string instead of the claimed
"05/10/1985"; the letter-for-digit translation does fire on the
separator-free token "O51O1985". -/
theorem c8_extract_dob_slashed_token :
    extract_dob (lit "DATE OF BIRTH: O5/1O/1985") = lit "" ∧
    extract_dob (lit "DATE OF BIRTH: O51O1985") = lit "05/10/1985" := by decide

/-- C9 counterexample: on the scenario-2 document the orchestrator does
not produce the reversed, title-cased name "Ana Garcia". -/
theorem c9_scenario2_counterexample :
    extraer_nombre_dob textoC9 ≠
      (some (lit "Ana Garcia"), some (lit "03-05-1990")) := by decide

/-- C9 amended: on a document where "GARCIA, ANA" ends 150 characters
before the DOB label, the orchestrator resolves the pair
("GARCIA ANA", "03-05-1990") - the name uppercased in Family-Given order -
and `buscar_por_proximidad` itself finds the same pair through its
200-character lookbehind window. -/
theorem c9_scenario2_result :
    extraer_nombre_dob textoC9 =
      (some (lit "GARCIA ANA"), some (lit "03-05-1990")) ∧
    buscar_por_proximidad textoC9 =
      (some (lit "GARCIA ANA"), some (lit "03-05-1990")) := by decide

/-- C10: the blocklist check is a plain substring test on the uppercased
candidate, so any candidate whose uppercase form contains a blocklist
entry - even inside longer words - is rejected. -/
theorem c10_blocklist_substring_rejection (s : Lstr)
    (h : ∃ neg ∈ NEGATIVOS, ∃ pre post, s.map pyUpper = pre ++ neg ++ post) :
    es_nombre_valido s = false :=
  (es_nombre_valido_false_iff s).mpr (Or.inr (Or.inr (Or.inr h)))

/-- C10 witness: "Carlos Smith" is rejected because "CARLOS SMITH"
contains the blocklist entry "LOS ". -/
theorem c10_blocklist_substring_rejection_witness :
    es_nombre_valido (lit "Carlos Smith") = false :=
  c10_blocklist_substring_rejection (lit "Carlos Smith")
    ⟨lit "LOS ", by decide, lit "CAR", lit "SMITH", by decide⟩
